import Mathlib

/-!
Shallow embedding of the process/thread lifecycle subsystem of the target
repository (proc.c, sysproc.c, ulib.c, thread.h).

The process table is modelled as a `List Proc`; the scan order of the C loops
`for(p = ptable.proc; p < &ptable.proc[NPROC]; p++)` is list order, and a
`struct proc *` pointer into the table is modelled as the slot index.
Machine integers are `Nat` with explicit `% 2^32` where 32-bit overflow can
matter.  External collaborators (kalloc, copyout, freevm, file system) are not
part of the sources; their success/failure is passed in as parameters, and a
call to `freevm` is reported in the result rather than performed.
-/

/-- Process states, in the order of the C enum
`{ UNUSED, EMBRYO, SLEEPING, RUNNABLE, RUNNING, ZOMBIE }`. -/
inductive ProcState where
  | UNUSED
  | EMBRYO
  | SLEEPING
  | RUNNABLE
  | RUNNING
  | ZOMBIE
deriving DecidableEq, Repr

/-- A sleep-channel value (`void *chan` in C): the null pointer, the address
of table slot `i`, or some other kernel address (such as `&ticks`). -/
inductive Chan where
  | null
  | procChan (i : Nat)
  | extChan (a : Nat)
deriving DecidableEq, Repr

/-- The claim-relevant registers of the trap frame (`tf->esp`, `tf->eip`,
`tf->eax`). -/
structure Trapframe where
  esp : Nat
  eip : Nat
  eax : Nat
deriving DecidableEq, Repr

/-- One slot of the process table (`struct proc`).  `parent` is the slot
index of the parent (`none` = null pointer), `pgdir` and `kstack` are abstract
handles (`none` = null), `name` is an abstract token for the `char name[16]`
field (`0` = empty). -/
structure Proc where
  state : ProcState
  pid : Nat
  parent : Option Nat
  pgdir : Option Nat
  sz : Nat
  kstack : Option Nat
  chan : Chan
  killed : Bool
  is_thread : Bool
  user_stack : Nat
  name : Nat
  tf : Trapframe
deriving DecidableEq, Repr

instance : Inhabited Proc :=
  ⟨⟨.UNUSED, 0, none, none, 0, none, .null, false, false, 0, 0, ⟨0, 0, 0⟩⟩⟩

/-- User memory of an address space, word-addressed by byte address of the
word base. -/
def Mem : Type := Nat → Nat

/-- A 4-byte store performed by `copyout`. -/
def memWrite (m : Mem) (a v : Nat) : Mem := fun x => if x = a then v else m x

/-- First slot (with its index) satisfying a predicate, in table scan order. -/
def scanIdx (pr : Proc → Bool) : List Proc → Option (Nat × Proc)
  | [] => none
  | q :: rest =>
      if pr q then some (0, q)
      else (scanIdx pr rest).map (fun x => (x.1 + 1, x.2))

/-- The body of `wakeup1`'s per-slot test and update:
`if(p->state == SLEEPING && p->chan == chan) p->state = RUNNABLE;`. -/
def wake1 (c : Chan) (p : Proc) : Proc :=
  if p.state = .SLEEPING ∧ p.chan = c then { p with state := .RUNNABLE } else p

/-- `wakeup1(chan)` (proc.c): scan the whole table and mark RUNNABLE every
slot that is SLEEPING on a matching channel. -/
def wakeup1 (c : Chan) (ps : List Proc) : List Proc := ps.map (wake1 c)

/-- `kill(pid)` (proc.c): scan for the first slot whose `pid` matches; set its
`killed` flag, move it SLEEPING → RUNNABLE, and return 0; if no slot matches,
return -1. -/
def kill (pid : Nat) (ps : List Proc) : List Proc × Int :=
  match scanIdx (fun p => p.pid == pid) ps with
  | some (j, p) =>
      (ps.set j { p with killed := true,
                         state := if p.state = .SLEEPING then .RUNNABLE else p.state }, 0)
  | none => (ps, -1)

/-! ### Basic facts about `scanIdx` -/

theorem scanIdx_eq_none {pr : Proc → Bool} {ps : List Proc}
    (h : scanIdx pr ps = none) : ∀ q ∈ ps, pr q = false := by
  induction ps with
  | nil => intro q hq; cases hq
  | cons a rest ih =>
      intro q hq
      by_cases ha : pr a
      · simp [scanIdx, ha] at h
      · cases hq with
        | head => simpa using ha
        | tail _ hq =>
            refine ih ?_ q hq
            simp only [scanIdx, if_neg ha] at h
            cases hrec : scanIdx pr rest with
            | none => rfl
            | some x => rw [hrec] at h; simp at h

theorem scanIdx_eq_some {pr : Proc → Bool} {ps : List Proc} {j : Nat} {q : Proc}
    (h : scanIdx pr ps = some (j, q)) : ps[j]? = some q ∧ pr q = true := by
  induction ps generalizing j with
  | nil => simp [scanIdx] at h
  | cons a rest ih =>
      by_cases ha : pr a
      · rw [scanIdx, if_pos ha] at h
        obtain ⟨h1, h2⟩ := Prod.mk.injEq _ _ _ _ ▸ Option.some.inj h
        subst h1; subst h2
        exact ⟨by simp, ha⟩
      · rw [scanIdx, if_neg ha] at h
        cases hrec : scanIdx pr rest with
        | none => rw [hrec] at h; simp at h
        | some x =>
            obtain ⟨i, b⟩ := x
            rw [hrec] at h
            simp at h
            obtain ⟨h1, h2⟩ := h
            subst h2
            obtain ⟨hget, hpr⟩ := ih hrec
            subst h1
            exact ⟨by simpa using hget, hpr⟩

/-! ### C7: wakeup is an exact broadcast -/

/-- C7: for every channel and table, `wakeup1` sets to RUNNABLE exactly the
SLEEPING slots whose channel matches, leaves every other slot (and every
other field) unchanged, and is a no-op on a table with no matching sleeper. -/
theorem wakeup1_broadcast (c : Chan) (ps : List Proc) :
    (wakeup1 c ps).length = ps.length ∧
    (∀ (j : Nat) (p : Proc), ps[j]? = some p →
      (wakeup1 c ps)[j]? =
        some (if p.state = .SLEEPING ∧ p.chan = c
              then { p with state := .RUNNABLE } else p)) ∧
    ((∀ p ∈ ps, ¬(p.state = .SLEEPING ∧ p.chan = c)) → wakeup1 c ps = ps) := by
  refine ⟨by simp [wakeup1], ?_, ?_⟩
  · intro j p hj
    simp [wakeup1, List.getElem?_map, hj, wake1]
  · intro hnone
    unfold wakeup1
    induction ps with
    | nil => rfl
    | cons a rest ih =>
        simp only [List.map_cons]
        have ha := hnone a (by simp)
        rw [wake1, if_neg ha, ih (fun p hp => hnone p (by simp [hp]))]

/-- Witness for C7 on a concrete table with no matching sleeper. -/
theorem wakeup1_broadcast_witness :
    wakeup1 (.extChan 5)
      [{ (default : Proc) with state := .RUNNING },
       { (default : Proc) with state := .SLEEPING, chan := .extChan 9 }] =
      [{ (default : Proc) with state := .RUNNING },
       { (default : Proc) with state := .SLEEPING, chan := .extChan 9 }] :=
  (wakeup1_broadcast (.extChan 5) _).2.2 (by decide)

/-! ### C10: kill -/

/-- C10: `kill(pid)` finds the first slot with a matching pid, sets its kill
flag, additionally moves it SLEEPING → RUNNABLE, and returns 0, leaving every
other slot untouched; if no slot matches it returns -1 and changes nothing. -/
theorem kill_spec (pid : Nat) (ps : List Proc) :
    (scanIdx (fun p => p.pid == pid) ps = none → kill pid ps = (ps, -1)) ∧
    (∀ (j : Nat) (p : Proc), scanIdx (fun p => p.pid == pid) ps = some (j, p) →
      p.pid = pid ∧
      kill pid ps =
        (ps.set j { p with killed := true,
                           state := if p.state = .SLEEPING then .RUNNABLE
                                    else p.state }, 0) ∧
      (∀ i : Nat, i ≠ j → (kill pid ps).1[i]? = ps[i]?)) := by
  constructor
  · intro h; simp [kill, h]
  · intro j p h
    have hs := scanIdx_eq_some h
    refine ⟨by simpa using hs.2, by simp [kill, h], ?_⟩
    intro i hij
    simp only [kill, h]
    exact List.getElem?_set_ne (Ne.symm hij)

/-- A concrete sleeping slot with pid 7, for the C10 witness. -/
def pC10 : Proc := { (default : Proc) with pid := 7, state := .SLEEPING, chan := .procChan 0 }

/-- A concrete two-slot table for the C10 witness. -/
def tblC10 : List Proc := [{ (default : Proc) with pid := 3 }, pC10]

/-- Witness for C10: on a concrete two-slot table, killing pid 7 flags the
sleeping second slot, wakes it, and returns 0. -/
theorem kill_spec_witness :
    pC10.pid = 7 ∧
    kill 7 tblC10 =
      (tblC10.set 1 { pC10 with
          killed := true,
          state := if pC10.state = .SLEEPING then .RUNNABLE else pC10.state }, 0) :=
  ⟨((kill_spec 7 tblC10).2 1 pC10 (by decide)).1,
   ((kill_spec 7 tblC10).2 1 pC10 (by decide)).2.1⟩

/-! ### allocproc (C9), clone (C4) and sys_clone (C6) -/

theorem getElem?_some_lt {ps : List Proc} {j : Nat} {q : Proc}
    (h : ps[j]? = some q) : j < ps.length := by
  by_contra hlt
  push_neg at hlt
  rw [List.getElem?_eq_none hlt] at h
  exact Option.noConfusion h

/-- `allocproc()` (proc.c).  `kallocRes` abstracts the external `kalloc()`
(`none` = allocation failure; the kernel-stack internals built on the page are
not modelled).  Under the table lock the first UNUSED slot is moved to EMBRYO
and given the next pid; the lock is then released, and on kalloc failure the
slot is put back to UNUSED and no unit is returned.
Result: (table, nextpid, allocated slot index or `none`). -/
def allocproc (ps : List Proc) (nextpid : Nat) (kallocRes : Option Nat) :
    List Proc × Nat × Option Nat :=
  match scanIdx (fun p => p.state == .UNUSED) ps with
  | none => (ps, nextpid, none)
  | some (i, p) =>
      let p1 := { p with state := .EMBRYO, pid := nextpid,
                         is_thread := false, user_stack := 0 }
      match kallocRes with
      | none => (ps.set i { p1 with kstack := none, state := .UNUSED }, nextpid + 1, none)
      | some ks => (ps.set i { p1 with kstack := some ks }, nextpid + 1, some i)

/-- One slot-state mutation performed during `allocproc`, tagged with whether
the table lock is held at the point of the write. -/
structure AllocMutation where
  lockHeld : Bool
  slot : Nat
  newState : ProcState
deriving DecidableEq, Repr

/-- The slot-state mutations performed by `allocproc`, in execution order,
each tagged with the table-lock status at that write: `p->state = EMBRYO` is
executed between `acquire(&ptable.lock)` and `release(&ptable.lock)`; the
failure path executes `p->state = UNUSED` after the `release`, so that write
happens with the lock not held. -/
def allocprocStateWrites (ps : List Proc) (kallocOk : Bool) : List AllocMutation :=
  match scanIdx (fun p => p.state == .UNUSED) ps with
  | none => []
  | some (i, _) =>
      if kallocOk then [⟨true, i, .EMBRYO⟩]
      else [⟨true, i, .EMBRYO⟩, ⟨false, i, .UNUSED⟩]

/-- A one-slot table holding an UNUSED slot, for C9. -/
def tblC9 : List Proc := [default]

/-- C9 counterexample: in `allocproc` on a table with an UNUSED slot and a
failing kernel-stack allocation, the claim "the slot is returned to the Unused
state under the table lock" is false: the UNUSED reset is executed with the
table lock not held (the code releases the lock before calling `kalloc`). -/
theorem allocproc_fail_reset_not_under_lock :
    allocprocStateWrites tblC9 false =
      [⟨true, 0, .EMBRYO⟩, ⟨false, 0, .UNUSED⟩] ∧
    ¬(∀ m ∈ allocprocStateWrites tblC9 false,
        m.newState = .UNUSED → m.lockHeld = true) := by
  constructor
  · decide
  · decide

/-- C9 (amended): if kernel-stack acquisition fails after the slot was marked
Embryo and assigned the next id, the slot is returned to UNUSED — but outside
the table lock, after the lock has been released — and allocation fails by
returning no unit; the scan and the EMBRYO marking are the slot-state
mutations made under the lock, the failure-path UNUSED reset is the one made
outside it. -/
theorem allocproc_fail_returns_slot (ps : List Proc) (nextpid : Nat)
    (i : Nat) (q : Proc)
    (halloc : scanIdx (fun p => p.state == .UNUSED) ps = some (i, q)) :
    (allocproc ps nextpid none).2.2 = none ∧
    (allocproc ps nextpid none).2.1 = nextpid + 1 ∧
    (allocproc ps nextpid none).1[i]? =
      some { q with state := .UNUSED, pid := nextpid, is_thread := false,
                    user_stack := 0, kstack := none } ∧
    allocprocStateWrites ps false =
      [⟨true, i, .EMBRYO⟩, ⟨false, i, .UNUSED⟩] := by
  have hlt : i < ps.length := getElem?_some_lt (scanIdx_eq_some halloc).1
  refine ⟨by simp [allocproc, halloc], by simp [allocproc, halloc], ?_, ?_⟩
  · simp only [allocproc, halloc]
    exact List.getElem?_set_eq_of_lt _ hlt
  · simp [allocprocStateWrites, halloc]

/-- Witness for C9 (amended) on the concrete one-slot table. -/
theorem allocproc_fail_returns_slot_witness :
    (allocproc tblC9 5 none).2.2 = none ∧
    (allocproc tblC9 5 none).2.1 = 6 ∧
    (allocproc tblC9 5 none).1[0]? =
      some { (default : Proc) with
             state := .UNUSED, pid := 5,
             is_thread := false, user_stack := 0, kstack := none } ∧
    allocprocStateWrites tblC9 false =
      [⟨true, 0, .EMBRYO⟩, ⟨false, 0, .UNUSED⟩] :=
  allocproc_fail_returns_slot tblC9 5 0 default (by decide)

/-- 32-bit unsigned subtraction, as in the C `ustack_ptr -= 4` steps. -/
def wsub (a b : Nat) : Nat := (a + 4294967296 - b) % 4294967296

/-- `clone(fcn, arg1, arg2, stack)` (proc.c).  `copyOk` abstracts the success
of the three external `copyout` calls (the first failing one aborts before any
user-memory write, frees the kernel stack and resets the slot).  On success
the synthetic frame is written into the shared address space: the sentinel
return address 0xffffffff at `stack + PGSIZE - 4`, then `arg2`, then `arg1`,
each 4 bytes below the previous; the new unit aliases the caller's `pgdir`
and `sz`, gets `esp` at the last written address, `eip = fcn`, `eax = 0`, is
flagged as a thread with `user_stack = stack`, is marked RUNNABLE, and its
pid is returned.  Result: (table, nextpid, memory, return value). -/
def clone (curIdx : Nat) (fcn arg1 arg2 stack : Nat) (kallocRes : Option Nat)
    (copyOk : Bool) (ps : List Proc) (nextpid : Nat) (mem : Mem) :
    List Proc × Nat × Mem × Int :=
  match allocproc ps nextpid kallocRes with
  | (ps1, np1, none) => (ps1, np1, mem, -1)
  | (ps1, np1, some i) =>
      let cur := ps1.getD curIdx default
      let child0 := ps1.getD i default
      let child1 := { child0 with pgdir := cur.pgdir, sz := cur.sz,
                                  parent := some curIdx, tf := cur.tf }
      let top := (stack + 4096) % 4294967296
      if copyOk then
        let mem1 := memWrite mem (wsub top 4) 4294967295
        let mem2 := memWrite mem1 (wsub top 8) arg2
        let mem3 := memWrite mem2 (wsub top 12) arg1
        let child2 := { child1 with
          tf := { esp := wsub top 12, eip := fcn, eax := 0 },
          is_thread := true, user_stack := stack, name := cur.name }
        (ps1.set i { child2 with state := .RUNNABLE }, np1, mem3, (child2.pid : Int))
      else
        (ps1.set i { child1 with kstack := none, state := .UNUSED,
                                 is_thread := false, user_stack := 0 },
         np1, mem, -1)

/-- `sys_clone()` (sysproc.c): validates the caller-supplied stack region with
32-bit arithmetic — `stack >= sz`, `stack + PGSIZE > sz`, or wraparound
`stack + PGSIZE < stack` — and returns -1 before `clone` (and hence before
any allocation) when the check fails. -/
def sys_clone (curIdx : Nat) (fcn arg1 arg2 stack : Nat) (kallocRes : Option Nat)
    (copyOk : Bool) (ps : List Proc) (nextpid : Nat) (mem : Mem) :
    List Proc × Nat × Mem × Int :=
  let cur := ps.getD curIdx default
  if stack ≥ cur.sz ∨ (stack + 4096) % 4294967296 > cur.sz ∨
     (stack + 4096) % 4294967296 < stack
  then (ps, nextpid, mem, -1)
  else clone curIdx fcn arg1 arg2 stack kallocRes copyOk ps nextpid mem

/-- C6: whenever the caller-supplied stack region is out of range (base at or
beyond the address-space size, region end beyond the size, or 32-bit
wraparound), `sys_clone` returns -1 with the table, the pid counter and user
memory all unchanged: the check fires before `clone` and before any
allocation. -/
theorem sys_clone_invalid_stack_no_side_effects
    (curIdx fcn arg1 arg2 stack : Nat) (kallocRes : Option Nat) (copyOk : Bool)
    (ps : List Proc) (nextpid : Nat) (mem : Mem)
    (hinv : stack ≥ (ps.getD curIdx default).sz ∨
            (stack + 4096) % 4294967296 > (ps.getD curIdx default).sz ∨
            (stack + 4096) % 4294967296 < stack) :
    sys_clone curIdx fcn arg1 arg2 stack kallocRes copyOk ps nextpid mem =
      (ps, nextpid, mem, -1) := by
  simp only [sys_clone]
  rw [if_pos hinv]

/-- A one-slot table whose slot has a 4096-byte address space, for C6. -/
def tblC6 : List Proc :=
  [{ (default : Proc) with state := .RUNNING, pid := 1, sz := 4096 }]

/-- Memory with all words zero. -/
def mem0 : Mem := fun _ => 0

/-- Witness for C6: a stack region starting at the address-space size is
rejected with no side effects. -/
theorem sys_clone_invalid_stack_no_side_effects_witness :
    sys_clone 0 77 1 2 4096 (some 9) true tblC6 5 mem0 = (tblC6, 5, mem0, -1) :=
  sys_clone_invalid_stack_no_side_effects 0 77 1 2 4096 (some 9) true tblC6 5 mem0
    (Or.inl (by decide))

/-- C4: on the success path (free slot, kernel stack obtained, copyouts
succeed), `clone` writes the sentinel return address 0xffffffff at the top of
the stack region minus 4, `arg2` 4 bytes below it, `arg1` 4 bytes below that,
touches no other memory, points the new unit's stack pointer at the lowest
written address and its instruction pointer at `fcn`, zeroes `eax`, aliases
the caller's `pgdir` and `sz`, flags the unit as a thread, remembers the
original stack region, marks the unit RUNNABLE, and returns its (new) pid;
no other table slot changes. -/
theorem clone_builds_thread_frame
    (curIdx fcn arg1 arg2 stack ks : Nat) (ps : List Proc) (nextpid : Nat)
    (mem : Mem) (i : Nat) (q : Proc)
    (halloc : scanIdx (fun p => p.state == .UNUSED) ps = some (i, q))
    (hcur : (ps.getD curIdx default).state ≠ .UNUSED)
    (htop : stack + 4096 < 4294967296) :
    (clone curIdx fcn arg1 arg2 stack (some ks) true ps nextpid mem).2.2.2 =
      (nextpid : Int) ∧
    (clone curIdx fcn arg1 arg2 stack (some ks) true ps nextpid mem).2.1 =
      nextpid + 1 ∧
    (clone curIdx fcn arg1 arg2 stack (some ks) true ps nextpid mem).2.2.1
      (stack + 4096 - 4) = 4294967295 ∧
    (clone curIdx fcn arg1 arg2 stack (some ks) true ps nextpid mem).2.2.1
      (stack + 4096 - 8) = arg2 ∧
    (clone curIdx fcn arg1 arg2 stack (some ks) true ps nextpid mem).2.2.1
      (stack + 4096 - 12) = arg1 ∧
    (∀ a : Nat, a ≠ stack + 4096 - 4 → a ≠ stack + 4096 - 8 →
      a ≠ stack + 4096 - 12 →
      (clone curIdx fcn arg1 arg2 stack (some ks) true ps nextpid mem).2.2.1 a =
        mem a) ∧
    (clone curIdx fcn arg1 arg2 stack (some ks) true ps nextpid mem).1 =
      ps.set i { q with
        state := .RUNNABLE, pid := nextpid, parent := some curIdx,
        pgdir := (ps.getD curIdx default).pgdir, sz := (ps.getD curIdx default).sz,
        kstack := some ks, is_thread := true, user_stack := stack,
        name := (ps.getD curIdx default).name,
        tf := ⟨stack + 4096 - 12, fcn, 0⟩ } ∧
    (∀ j : Nat, j ≠ i →
      (clone curIdx fcn arg1 arg2 stack (some ks) true ps nextpid mem).1[j]? =
        ps[j]?) := by
  obtain ⟨hqget, hqpr⟩ := scanIdx_eq_some halloc
  have hqU : q.state = .UNUSED := by simpa using hqpr
  have hilt : i < ps.length := getElem?_some_lt hqget
  have hic : i ≠ curIdx := by
    intro he
    apply hcur
    rw [← he]
    simp only [List.getD, List.get?_eq_getElem?, hqget, Option.getD_some]
    exact hqU
  have hm : (stack + 4096) % 4294967296 = stack + 4096 := by omega
  have hw4 : wsub (stack + 4096) 4 = stack + 4096 - 4 := by unfold wsub; omega
  have hw8 : wsub (stack + 4096) 8 = stack + 4096 - 8 := by unfold wsub; omega
  have hw12 : wsub (stack + 4096) 12 = stack + 4096 - 12 := by unfold wsub; omega
  have hgetcur : ∀ x : Proc, (ps.set i x).getD curIdx default = ps.getD curIdx default := by
    intro x
    simp only [List.getD, List.get?_eq_getElem?, List.getElem?_set_ne hic]
  have hgeti : ∀ x : Proc, (ps.set i x).getD i default = x := by
    intro x
    simp only [List.getD, List.get?_eq_getElem?, List.getElem?_set_eq_of_lt x hilt,
      Option.getD_some]
  refine ⟨?_, ?_, ?_, ?_, ?_, ?_, ?_, ?_⟩
  · simp only [clone, allocproc, halloc, if_true, hgetcur, hgeti]
  · simp only [clone, allocproc, halloc, if_true, hgetcur, hgeti]
  · simp only [clone, allocproc, halloc, if_true, hgetcur, hgeti, hm, hw4, hw8, hw12,
      memWrite]
    rw [if_neg (by omega), if_neg (by omega)]
  · simp only [clone, allocproc, halloc, if_true, hgetcur, hgeti, hm, hw4, hw8, hw12,
      memWrite]
    rw [if_neg (by omega)]
  · simp only [clone, allocproc, halloc, if_true, hgetcur, hgeti, hm, hw4, hw8, hw12,
      memWrite]
  · intro a h4 h8 h12
    simp only [clone, allocproc, halloc, if_true, hgetcur, hgeti, hm, hw4, hw8, hw12,
      memWrite]
    rw [if_neg h12, if_neg h8, if_neg h4]
  · simp only [clone, allocproc, halloc, if_true, hgetcur, hgeti, hm, hw4, hw8, hw12,
      List.set_set]
  · intro j hj
    simp only [clone, allocproc, halloc, if_true]
    rw [List.getElem?_set_ne (Ne.symm hj), List.getElem?_set_ne (Ne.symm hj)]

/-- A concrete table for the C4 witness: a RUNNING caller in slot 0 and a
free slot in slot 1. -/
def tblC4 : List Proc :=
  [{ (default : Proc) with
     state := .RUNNING, pid := 1, sz := 8192,
     pgdir := some 3, name := 9, tf := ⟨11, 22, 33⟩ },
   default]

/-- Witness for C4 at a concrete input: caller in slot 0, free slot 1,
stack region at 4096, pid counter 5. -/
theorem clone_builds_thread_frame_witness :
    (clone 0 77 111 222 4096 (some 42) true tblC4 5 mem0).2.2.2 = (5 : Int) ∧
    (clone 0 77 111 222 4096 (some 42) true tblC4 5 mem0).2.1 = 5 + 1 ∧
    (clone 0 77 111 222 4096 (some 42) true tblC4 5 mem0).2.2.1
      (4096 + 4096 - 4) = 4294967295 ∧
    (clone 0 77 111 222 4096 (some 42) true tblC4 5 mem0).2.2.1
      (4096 + 4096 - 8) = 222 ∧
    (clone 0 77 111 222 4096 (some 42) true tblC4 5 mem0).2.2.1
      (4096 + 4096 - 12) = 111 ∧
    (∀ a : Nat, a ≠ 4096 + 4096 - 4 → a ≠ 4096 + 4096 - 8 →
      a ≠ 4096 + 4096 - 12 →
      (clone 0 77 111 222 4096 (some 42) true tblC4 5 mem0).2.2.1 a = mem0 a) ∧
    (clone 0 77 111 222 4096 (some 42) true tblC4 5 mem0).1 =
      tblC4.set 1 { (default : Proc) with
        state := .RUNNABLE, pid := 5, parent := some 0,
        pgdir := (tblC4.getD 0 default).pgdir, sz := (tblC4.getD 0 default).sz,
        kstack := some 42, is_thread := true, user_stack := 4096,
        name := (tblC4.getD 0 default).name,
        tf := ⟨4096 + 4096 - 12, 77, 0⟩ } ∧
    (∀ j : Nat, j ≠ 1 →
      (clone 0 77 111 222 4096 (some 42) true tblC4 5 mem0).1[j]? =
        tblC4[j]?) :=
  clone_builds_thread_frame 0 77 111 222 4096 42 tblC4 5 mem0 1 default
    (by decide) (by decide) (by decide)

/-! ### wait (C1, C2) and join (C1, C5) -/

theorem scanIdx_none_of {pr : Proc → Bool} {ps : List Proc}
    (h : ∀ q ∈ ps, pr q = false) : scanIdx pr ps = none := by
  induction ps with
  | nil => rfl
  | cons a rest ih =>
      simp [scanIdx, h a (by simp), ih (fun q hq => h q (by simp [hq]))]

/-- Outcome of one pass of the `wait`/`join` loop body.  `reaped pid freed`
reports the reaped child's pid and the handle passed to the external `freevm`
(`none` when `freevm` is not called); `blocks c` is the `sleep(curproc, ...)`
branch, recording the channel slept on; the loop then retries. -/
inductive RRes where
  | reaped (pid : Nat) (freed : Option Nat)
  | noChildren
  | copyOutError
  | blocks (c : Chan)
deriving DecidableEq, Repr

/-- The C return value of a `wait`/`join` outcome (`blocks` does not return;
it is given the unused code 0). -/
def RRes.code : RRes → Int
  | .reaped pid _ => (pid : Int)
  | .noChildren => -1
  | .copyOutError => -2
  | .blocks _ => 0

/-- Result record of one `wait`/`join` loop pass: outcome plus table. -/
structure StepOut where
  res : RRes
  tbl : List Proc
deriving DecidableEq, Repr

/-- The count computed by `check_and_free_shared_pgdir` (proc.c): slots other
than the dying one that hold the same `pgdir` and are neither UNUSED nor
ZOMBIE. -/
def sharedPgdirUsers (ps : List Proc) (j : Nat) (dp : Proc) : Nat :=
  (ps.enum.filter (fun x =>
    !(x.1 == j) && x.2.pgdir == dp.pgdir &&
    !(x.2.state == .UNUSED) && !(x.2.state == .ZOMBIE))).length

/-- `check_and_free_shared_pgdir(dying)` (proc.c): nothing is freed when the
dying unit's `pgdir` is null; otherwise `freevm(pgdir)` runs exactly when no
other active slot shares the handle.  Returns the handle passed to `freevm`,
or `none`. -/
def check_and_free_shared_pgdir (ps : List Proc) (j : Nat) (dp : Proc) : Option Nat :=
  if dp.pgdir = none then none
  else if sharedPgdirUsers ps j dp = 0 then dp.pgdir else none

/-- The `wait` loop's test for a non-thread child of the caller. -/
def waitKidB (curIdx : Nat) (p : Proc) : Bool :=
  p.parent == some curIdx && !p.is_thread

/-- The `wait` loop's test for a reapable (ZOMBIE) non-thread child. -/
def waitZombieB (curIdx : Nat) (p : Proc) : Bool :=
  waitKidB curIdx p && p.state == .ZOMBIE

/-- One pass of the `wait()` loop body (proc.c): reap the first ZOMBIE
non-thread child (free its kernel stack, run `check_and_free_shared_pgdir`,
reset pid/parent/name/killed and mark the slot UNUSED, returning its pid);
with no such zombie, return -1 when there are no non-thread children at all
or the caller is kill-flagged, else sleep on the caller's own slot address. -/
def wait (curIdx : Nat) (ps : List Proc) : StepOut :=
  match scanIdx (waitZombieB curIdx) ps with
  | some (j, p) =>
      ⟨.reaped p.pid (check_and_free_shared_pgdir ps j p),
       ps.set j { p with kstack := none, pid := 0, parent := none,
                         name := 0, killed := false, state := .UNUSED }⟩
  | none =>
      if !(ps.any (waitKidB curIdx)) || (ps.getD curIdx default).killed
      then ⟨.noChildren, ps⟩
      else ⟨.blocks (.procChan curIdx), ps⟩

/-- The `join` loop's test for a thread child of the caller. -/
def joinKidB (curIdx : Nat) (p : Proc) : Bool :=
  p.parent == some curIdx && p.is_thread

/-- The `join` loop's test for a reapable (ZOMBIE) thread child. -/
def joinZombieB (curIdx : Nat) (p : Proc) : Bool :=
  joinKidB curIdx p && p.state == .ZOMBIE

/-- One pass of the `join(stack_ptr_user)` loop body (proc.c).  `dst` is the
caller-supplied output address and `copyOk` abstracts the external `copyout`
of the child's remembered `user_stack` handle.  On the first ZOMBIE thread
child: a failed copyout returns -2 with the table untouched; otherwise the
child's `user_stack` is written to `dst`, its kernel stack freed, its slot
reset (pid/parent/name/killed/is_thread/user_stack) and marked UNUSED, and
its pid returned — with no `freevm` call on the shared `pgdir`.  With no such
zombie: return -1 when there is no thread child at all or the caller is
kill-flagged, else sleep on the caller's own slot address. -/
def join (curIdx dst : Nat) (copyOk : Bool) (ps : List Proc) (mem : Mem) :
    StepOut × Mem :=
  match scanIdx (joinZombieB curIdx) ps with
  | some (j, p) =>
      if copyOk then
        (⟨.reaped p.pid none,
          ps.set j { p with kstack := none, pid := 0, parent := none,
                            name := 0, killed := false, state := .UNUSED,
                            is_thread := false, user_stack := 0 }⟩,
         memWrite mem dst p.user_stack)
      else (⟨.copyOutError, ps⟩, mem)
  | none =>
      if !(ps.any (joinKidB curIdx)) || (ps.getD curIdx default).killed
      then (⟨.noChildren, ps⟩, mem)
      else (⟨.blocks (.procChan curIdx), ps⟩, mem)

/-- C2 (amended): one pass of `wait()` returns the -1 NoChildren failure,
with the table unchanged, when the caller has no non-thread children at all,
and also when the caller is kill-flagged and no non-thread child is currently
ZOMBIE; when a ZOMBIE non-thread child exists — even for a kill-flagged
caller — the first one in scan order is reaped: its kernel stack is released
and its pid, parent, name and kill fields are reset to the Unused defaults,
its state is set to UNUSED, and its pid is returned; and while a non-thread
child exists but none is ZOMBIE and the caller is not kill-flagged, `wait`
does not return: it sleeps on the caller's own slot address and retries. -/
theorem wait_spec_amended (curIdx : Nat) (ps : List Proc) :
    ((∀ p ∈ ps, waitKidB curIdx p = false) → wait curIdx ps = ⟨.noChildren, ps⟩) ∧
    ((ps.getD curIdx default).killed = true →
      scanIdx (waitZombieB curIdx) ps = none →
      wait curIdx ps = ⟨.noChildren, ps⟩) ∧
    (∀ (j : Nat) (p : Proc), scanIdx (waitZombieB curIdx) ps = some (j, p) →
      p.state = .ZOMBIE ∧ p.is_thread = false ∧ p.parent = some curIdx ∧
      wait curIdx ps =
        ⟨.reaped p.pid (check_and_free_shared_pgdir ps j p),
         ps.set j { p with kstack := none, pid := 0, parent := none,
                           name := 0, killed := false, state := .UNUSED }⟩) ∧
    (ps.any (waitKidB curIdx) = true →
      (ps.getD curIdx default).killed = false →
      scanIdx (waitZombieB curIdx) ps = none →
      wait curIdx ps = ⟨.blocks (.procChan curIdx), ps⟩) ∧
    RRes.code .noChildren = -1 := by
  refine ⟨?_, ?_, ?_, ?_, rfl⟩
  · intro hnone
    have hz : scanIdx (waitZombieB curIdx) ps = none := by
      refine scanIdx_none_of (fun q hq => ?_)
      simp [waitZombieB, hnone q hq]
    have hany : ps.any (waitKidB curIdx) = false := by
      simp only [List.any_eq_false]
      intro q hq
      simp [hnone q hq]
    simp [wait, hz, hany]
  · intro hk hz
    have hc : (!(ps.any (waitKidB curIdx)) || (ps.getD curIdx default).killed) = true := by
      rw [hk, Bool.or_true]
    simp only [wait, hz]
    rw [hc]
    simp
  · intro j p hz
    obtain ⟨hget, hpr⟩ := scanIdx_eq_some hz
    rw [waitZombieB, Bool.and_eq_true] at hpr
    obtain ⟨hkid, hst⟩ := hpr
    rw [waitKidB, Bool.and_eq_true] at hkid
    obtain ⟨hp, hth⟩ := hkid
    refine ⟨by simpa using hst, by simpa using hth, by simpa using hp, ?_⟩
    simp [wait, hz]
  · intro hany hk hz
    have hc : (!(ps.any (waitKidB curIdx)) || (ps.getD curIdx default).killed) = false := by
      rw [hany, hk]
      rfl
    simp only [wait, hz]
    rw [hc]
    simp

/-- A RUNNING, kill-flagged caller for the C2 counterexample. -/
def pC2care : Proc :=
  { (default : Proc) with state := .RUNNING, pid := 1, killed := true }

/-- A ZOMBIE non-thread child of slot 0, for the C2 counterexample. -/
def pC2kid : Proc :=
  { (default : Proc) with
    state := .ZOMBIE, pid := 5, parent := some 0, kstack := some 3 }

/-- Table for the C2 counterexample: kill-flagged caller with a zombie
non-thread child. -/
def tblC2 : List Proc := [pC2care, pC2kid]

/-- C2 counterexample: with the caller kill-flagged and a ZOMBIE non-thread
child present, `wait` does not return the NoChildren failure as the claim
states; it reaps the child and returns its pid 5. -/
theorem wait_killed_with_zombie_counterexample :
    (tblC2.getD 0 default).killed = true ∧
    (wait 0 tblC2).res ≠ .noChildren ∧
    (wait 0 tblC2).res = .reaped 5 none := by
  refine ⟨by decide, by decide, by decide⟩

/-- Witness for C2 (amended): a caller with one live (non-zombie) non-thread
child and no kill flag blocks, sleeping on its own slot address. -/
theorem wait_spec_amended_witness :
    wait 0 [{ (default : Proc) with state := .RUNNING, pid := 1 },
            { (default : Proc) with state := .RUNNING, pid := 2, parent := some 0 }] =
      ⟨.blocks (.procChan 0),
       [{ (default : Proc) with state := .RUNNING, pid := 1 },
        { (default : Proc) with state := .RUNNING, pid := 2, parent := some 0 }]⟩ :=
  (wait_spec_amended 0 _).2.2.2.1 (by decide) (by decide) (by decide)

/-- C5: when `join` finds a ZOMBIE thread child, a failed copyout of the
child's remembered stack handle returns the code -2 — distinct from the -1
NoChildren code — with the whole table (in particular the child's slot, still
ZOMBIE with its kernel stack) unchanged; a successful copyout writes the
remembered `user_stack` handle to the caller-supplied location, frees the
kernel stack, resets the slot to the Unused defaults, and returns the child's
pid; in both cases no address-space teardown happens (`freevm` is never
reported). -/
theorem join_copyout_spec (curIdx dst : Nat) (ps : List Proc) (mem : Mem)
    (j : Nat) (p : Proc)
    (hz : scanIdx (joinZombieB curIdx) ps = some (j, p)) :
    join curIdx dst false ps mem = (⟨.copyOutError, ps⟩, mem) ∧
    RRes.code .copyOutError = -2 ∧
    RRes.code .copyOutError ≠ RRes.code .noChildren ∧
    ps[j]? = some p ∧ p.state = .ZOMBIE ∧
    join curIdx dst true ps mem =
      (⟨.reaped p.pid none,
        ps.set j { p with kstack := none, pid := 0, parent := none,
                          name := 0, killed := false, state := .UNUSED,
                          is_thread := false, user_stack := 0 }⟩,
       memWrite mem dst p.user_stack) := by
  obtain ⟨hget, hpr⟩ := scanIdx_eq_some hz
  simp only [joinZombieB, joinKidB, Bool.and_eq_true, beq_iff_eq] at hpr
  exact ⟨by simp [join, hz], rfl, by decide, hget, hpr.2, by simp [join, hz]⟩

/-- The ZOMBIE thread child shared by the C5 witness and the C1
counterexample: pid 2, parent slot 0, shared address space handle 7,
remembered user stack 4096, with no other live slot holding handle 7. -/
def pT : Proc :=
  { (default : Proc) with
    state := .ZOMBIE, pid := 2, parent := some 0, pgdir := some 7,
    kstack := some 11, is_thread := true, user_stack := 4096 }

/-- Table for the C5 witness and C1 counterexample: a RUNNING caller with
its own address space (handle 1) and the ZOMBIE thread child `pT`. -/
def tblT : List Proc :=
  [{ (default : Proc) with state := .RUNNING, pid := 1, pgdir := some 1 }, pT]

/-- Witness for C5 on the concrete table `tblT`. -/
theorem join_copyout_spec_witness :
    join 0 100 false tblT mem0 = (⟨.copyOutError, tblT⟩, mem0) ∧
    RRes.code .copyOutError = -2 ∧
    RRes.code .copyOutError ≠ RRes.code .noChildren ∧
    tblT[1]? = some pT ∧ pT.state = .ZOMBIE ∧
    join 0 100 true tblT mem0 =
      (⟨.reaped pT.pid none,
        tblT.set 1 { pT with kstack := none, pid := 0, parent := none,
                             name := 0, killed := false, state := .UNUSED,
                             is_thread := false, user_stack := 0 }⟩,
       memWrite mem0 100 pT.user_stack) :=
  join_copyout_spec 0 100 tblT mem0 1 pT (by decide)

/-- C1 counterexample: reaping the ZOMBIE thread `pT` through `join` is the
last reap of a unit holding address-space handle 7 — no other slot holds it
live — yet `join` performs no teardown (`freevm` is never called), so the
claimed "teardown happens iff no other live unit references the handle at
reap time, on either reaping path" is false at this input. -/
theorem join_last_reap_no_teardown_counterexample :
    pT.pgdir = some 7 ∧
    sharedPgdirUsers tblT 1 pT = 0 ∧
    (join 0 100 true tblT mem0).1.res = .reaped 2 none ∧
    (join 0 100 true tblT mem0).1.res ≠ .reaped 2 (some 7) ∧
    (∀ p ∈ (join 0 100 true tblT mem0).1.tbl,
      ¬(p.pgdir = some 7 ∧ p.state ≠ .UNUSED ∧ p.state ≠ .ZOMBIE)) := by
  refine ⟨by decide, by decide, by decide, by decide, by decide⟩

/-- C1 (amended): a `wait`-path reap tears the address space down iff the
dying unit's handle is non-null and, at reap time, no other non-UNUSED,
non-ZOMBIE slot holds the same handle; a `join`-path reap never tears the
address space down, whatever the table — so teardown happens on the last
reap only when that reap is performed by `wait`. -/
theorem teardown_only_on_wait_reap (curIdx : Nat) (ps : List Proc) :
    (∀ (j : Nat) (p : Proc) (h : Nat),
      scanIdx (waitZombieB curIdx) ps = some (j, p) →
      ((wait curIdx ps).res = .reaped p.pid (some h) ↔
        p.pgdir = some h ∧ sharedPgdirUsers ps j p = 0)) ∧
    (∀ (dst : Nat) (copyOk : Bool) (mem : Mem) (pid : Nat) (h : Nat),
      (join curIdx dst copyOk ps mem).1.res ≠ .reaped pid (some h)) := by
  constructor
  · intro j p h hz
    simp only [wait, hz, check_and_free_shared_pgdir]
    cases hpg : p.pgdir with
    | none => simp
    | some g =>
        by_cases hc : sharedPgdirUsers ps j p = 0
        · simp [hc]
        · simp [hc]
  · intro dst copyOk mem pid h
    cases hz : scanIdx (joinZombieB curIdx) ps with
    | some x =>
        obtain ⟨j, p⟩ := x
        cases copyOk with
        | true => simp [join, hz]
        | false => simp [join, hz]
    | none =>
        cases hcond : (!(ps.any (joinKidB curIdx)) || (ps.getD curIdx default).killed) with
        | true =>
            simp only [join, hz]
            rw [hcond]
            simp
        | false =>
            simp only [join, hz]
            rw [hcond]
            simp

/-- A ZOMBIE non-thread child holding sole reference to handle 9, for the C1
witness. -/
def pW : Proc :=
  { (default : Proc) with
    state := .ZOMBIE, pid := 4, parent := some 0, pgdir := some 9,
    kstack := some 12 }

/-- Table for the C1 witness: RUNNING caller (own handle 1) and `pW`. -/
def tblW : List Proc :=
  [{ (default : Proc) with state := .RUNNING, pid := 1, pgdir := some 1 }, pW]

/-- Witness for C1 (amended): on `tblW`, the `wait` reap of `pW` frees handle
9 (it is the last live reference), and a `join` reap never frees anything. -/
theorem teardown_only_on_wait_reap_witness :
    (wait 0 tblW).res = .reaped 4 (some 9) ∧
    (join 0 100 true tblW mem0).1.res ≠ .reaped 4 (some 9) := by
  constructor
  · have h := ((teardown_only_on_wait_reap 0 tblW).1 1 pW 9 (by decide)).mpr
      ⟨by decide, by decide⟩
    simpa using h
  · exact (teardown_only_on_wait_reap 0 tblW).2 100 true mem0 4 9

/-! ### exit (C3) -/

/-- The channel value `curproc->parent` passed to `wakeup1` by `exit`. -/
def chanOfParent : Option Nat → Chan
  | some i => .procChan i
  | none => .null

/-- One iteration of the reparenting loop in `exit()` (proc.c): if slot `i`
has the exiting unit as parent, point its parent at `initproc`, and when that
slot is already ZOMBIE run `wakeup1(initproc)` over the whole table. -/
def reparent1 (initIdx curIdx : Nat) (acc : List Proc) (i : Nat) : List Proc :=
  match acc[i]? with
  | none => acc
  | some p =>
      if p.parent = some curIdx then
        let acc1 := acc.set i { p with parent := some initIdx }
        if p.state = .ZOMBIE then wakeup1 (.procChan initIdx) acc1 else acc1
      else acc

/-- `exit()` (proc.c), the part under the table lock, up to the `sched()`
handoff that never returns (file-descriptor and cwd release are outside the
table and not modelled).  `none` models the `panic("init exiting")` when the
distinguished root unit calls it; otherwise the result is the table handed to
the scheduler: wake sleepers on the parent's address, reparent the exiting
unit's children to `initproc` (waking sleepers on `initproc`'s address when a
reparented child is already ZOMBIE), and mark the exiting unit ZOMBIE. -/
def exit (initIdx curIdx : Nat) (ps : List Proc) : Option (List Proc) :=
  if curIdx = initIdx then none
  else
    let cur := ps.getD curIdx default
    let ps1 := wakeup1 (chanOfParent cur.parent) ps
    let ps2 := (List.range ps.length).foldl (reparent1 initIdx curIdx) ps1
    some (ps2.set curIdx { ps2.getD curIdx default with state := .ZOMBIE })

theorem wake1_parent (c : Chan) (p : Proc) : (wake1 c p).parent = p.parent := by
  unfold wake1; split <;> rfl

theorem wake1_chan (c : Chan) (p : Proc) : (wake1 c p).chan = p.chan := by
  unfold wake1; split <;> rfl

theorem wake1_zombie_iff (c : Chan) (p : Proc) :
    (wake1 c p).state = .ZOMBIE ↔ p.state = .ZOMBIE := by
  unfold wake1
  split
  · rename_i h
    simp [h.1]
  · exact Iff.rfl

theorem wake1_not_sleeping {c : Chan} {p : Proc} (h : p.state ≠ .SLEEPING) :
    wake1 c p = p := by
  unfold wake1
  rw [if_neg]
  intro hc
  exact h hc.1

theorem wake1_idem (c : Chan) (p : Proc) : wake1 c (wake1 c p) = wake1 c p := by
  by_cases h : p.state = .SLEEPING ∧ p.chan = c
  · simp [wake1, h]
  · simp [wake1, h]

theorem wake1_update_parent (c : Chan) (p : Proc) (v : Option Nat) :
    wake1 c { p with parent := v } = { wake1 c p with parent := v } := by
  by_cases h : p.state = .SLEEPING ∧ p.chan = c
  · simp [wake1, h]
  · simp [wake1, h]

theorem wakeup1_getElem (c : Chan) (ps : List Proc) (j : Nat) :
    (wakeup1 c ps)[j]? = (ps[j]?).map (wake1 c) := by
  simp [wakeup1, List.getElem?_map]

/-- Whether, among the first `k` slots, some slot has the exiting unit as
parent and is already ZOMBIE — the condition under which the reparenting
loop has run `wakeup1(initproc)` after processing `k` slots. -/
def zombieKidUpto (curIdx : Nat) (ps1 : List Proc) (k : Nat) : Bool :=
  (List.range k).any (fun i =>
    match ps1[i]? with
    | some qi => qi.parent == some curIdx && qi.state == .ZOMBIE
    | none => false)

/-- The value of slot `j` after the reparenting loop has processed the first
`k` slots of a table whose entry `j` was `q`. -/
def stage (initIdx curIdx : Nat) (ps1 : List Proc) (k j : Nat) (q : Proc) : Proc :=
  let q1 := if j < k ∧ q.parent = some curIdx then { q with parent := some initIdx } else q
  if zombieKidUpto curIdx ps1 k then wake1 (.procChan initIdx) q1 else q1

theorem zombieKidUpto_succ (curIdx : Nat) (ps1 : List Proc) (k : Nat) :
    zombieKidUpto curIdx ps1 (k + 1) =
      (zombieKidUpto curIdx ps1 k ||
        (match ps1[k]? with
         | some qi => qi.parent == some curIdx && qi.state == .ZOMBIE
         | none => false)) := by
  unfold zombieKidUpto
  rw [List.range_succ, List.any_append]
  simp

theorem stage_parent (initIdx curIdx : Nat) (ps1 : List Proc) (k j : Nat) (q : Proc) :
    (stage initIdx curIdx ps1 k j q).parent =
      (if j < k ∧ q.parent = some curIdx then some initIdx else q.parent) := by
  unfold stage
  dsimp only
  by_cases hz : zombieKidUpto curIdx ps1 k = true
  · simp only [if_pos hz, wake1_parent]
    by_cases h : j < k ∧ q.parent = some curIdx
    · simp only [if_pos h]
    · simp only [if_neg h]
  · simp only [if_neg hz]
    by_cases h : j < k ∧ q.parent = some curIdx
    · simp only [if_pos h]
    · simp only [if_neg h]

theorem stage_self_zombie_iff (initIdx curIdx : Nat) (ps1 : List Proc) (k : Nat)
    (q : Proc) : (stage initIdx curIdx ps1 k k q).state = .ZOMBIE ↔ q.state = .ZOMBIE := by
  unfold stage
  simp only [Nat.lt_irrefl, false_and, if_false]
  split
  · exact wake1_zombie_iff _ _
  · exact Iff.rfl

theorem reparent1_none {initIdx curIdx : Nat} {acc : List Proc} {i : Nat}
    (h : acc[i]? = none) : reparent1 initIdx curIdx acc i = acc := by
  unfold reparent1
  rw [h]

theorem reparent1_not_child {initIdx curIdx : Nat} {acc : List Proc} {i : Nat}
    {p : Proc} (h : acc[i]? = some p) (hp : p.parent ≠ some curIdx) :
    reparent1 initIdx curIdx acc i = acc := by
  unfold reparent1
  rw [h]
  dsimp only
  rw [if_neg hp]

theorem reparent1_child_zombie {initIdx curIdx : Nat} {acc : List Proc} {i : Nat}
    {p : Proc} (h : acc[i]? = some p) (hp : p.parent = some curIdx)
    (hz : p.state = .ZOMBIE) :
    reparent1 initIdx curIdx acc i =
      wakeup1 (.procChan initIdx) (acc.set i { p with parent := some initIdx }) := by
  unfold reparent1
  rw [h]
  dsimp only
  rw [if_pos hp, if_pos hz]

theorem reparent1_child_live {initIdx curIdx : Nat} {acc : List Proc} {i : Nat}
    {p : Proc} (h : acc[i]? = some p) (hp : p.parent = some curIdx)
    (hz : p.state ≠ .ZOMBIE) :
    reparent1 initIdx curIdx acc i = acc.set i { p with parent := some initIdx } := by
  unfold reparent1
  rw [h]
  dsimp only
  rw [if_pos hp, if_neg hz]

theorem reparent_fold_get (initIdx curIdx : Nat) (ps1 : List Proc) (k : Nat) :
    ((List.range k).foldl (reparent1 initIdx curIdx) ps1).length = ps1.length ∧
    (∀ (j : Nat) (q : Proc), ps1[j]? = some q →
      ((List.range k).foldl (reparent1 initIdx curIdx) ps1)[j]? =
        some (stage initIdx curIdx ps1 k j q)) := by
  induction k with
  | zero =>
      refine ⟨rfl, ?_⟩
      intro j q hj
      have hst : stage initIdx curIdx ps1 0 j q = q := by
        unfold stage zombieKidUpto
        simp
      rw [hst]
      simpa using hj
  | succ k ih =>
      obtain ⟨ihlen, ihget⟩ := ih
      rw [List.range_succ, List.foldl_append, List.foldl_cons, List.foldl_nil]
      cases hk : ps1[k]? with
      | none =>
          have hlenk : ps1.length ≤ k := by
            by_contra hlt
            push_neg at hlt
            rw [List.getElem?_eq_getElem hlt] at hk
            exact Option.noConfusion hk
          have hAk : ((List.range k).foldl (reparent1 initIdx curIdx) ps1)[k]? = none := by
            rw [List.getElem?_eq_none]
            rw [ihlen]
            exact hlenk
          rw [reparent1_none hAk]
          refine ⟨ihlen, ?_⟩
          intro j q hj
          have hjk : j < k := Nat.lt_of_lt_of_le (getElem?_some_lt hj) hlenk
          have hzk : zombieKidUpto curIdx ps1 (k + 1) = zombieKidUpto curIdx ps1 k := by
            rw [zombieKidUpto_succ, hk]
            simp
          have hstage : stage initIdx curIdx ps1 (k + 1) j q =
              stage initIdx curIdx ps1 k j q := by
            unfold stage
            rw [hzk]
            have hiff : (j < k + 1 ∧ q.parent = some curIdx) ↔
                (j < k ∧ q.parent = some curIdx) := by
              constructor
              · rintro ⟨_, h2⟩; exact ⟨hjk, h2⟩
              · rintro ⟨_, h2⟩; exact ⟨by omega, h2⟩
            rw [if_congr hiff rfl rfl]
          rw [hstage]
          exact ihget j q hj
      | some qk =>
          have hklt : k < ps1.length := getElem?_some_lt hk
          have hAk : ((List.range k).foldl (reparent1 initIdx curIdx) ps1)[k]? =
              some (stage initIdx curIdx ps1 k k qk) := ihget k qk hk
          have hSpar : (stage initIdx curIdx ps1 k k qk).parent = qk.parent := by
            rw [stage_parent]
            simp
          by_cases hpar : qk.parent = some curIdx
          · by_cases hzb : qk.state = .ZOMBIE
            · -- reparented zombie child: wakeup1 on initproc runs
              have hSqk : stage initIdx curIdx ps1 k k qk = qk := by
                unfold stage
                dsimp only
                simp only [Nat.lt_irrefl, false_and, if_false]
                split
                · exact wake1_not_sleeping (by simp [hzb])
                · rfl
              rw [reparent1_child_zombie hAk (by rw [hSpar]; exact hpar)
                    ((stage_self_zombie_iff initIdx curIdx ps1 k qk).mpr hzb)]
              have hzk1 : zombieKidUpto curIdx ps1 (k + 1) = true := by
                rw [zombieKidUpto_succ, hk]
                simp [hpar, hzb]
              constructor
              · simp [wakeup1, ihlen]
              · intro j q hj
                by_cases hjk : j = k
                · subst hjk
                  have hq : q = qk := by
                    rw [hj] at hk
                    exact Option.some.inj hk
                  subst hq
                  rw [wakeup1_getElem,
                      List.getElem?_set_eq_of_lt _ (by rw [ihlen]; exact hklt)]
                  rw [hSqk, Option.map_some']
                  have hXz : ({ q with parent := some initIdx } : Proc).state ≠
                      .SLEEPING := by
                    simp [hzb]
                  rw [wake1_not_sleeping hXz]
                  unfold stage
                  dsimp only
                  have hcc : j < j + 1 ∧ q.parent = some curIdx :=
                    ⟨Nat.lt_succ_self j, hpar⟩
                  rw [hzk1, if_pos rfl, if_pos hcc, wake1_not_sleeping hXz]
                · rw [wakeup1_getElem, List.getElem?_set_ne (Ne.symm hjk),
                      ihget j q hj, Option.map_some']
                  have hcnd : (j < k + 1 ∧ q.parent = some curIdx) ↔
                      (j < k ∧ q.parent = some curIdx) := by
                    constructor
                    · rintro ⟨h1, h2⟩; exact ⟨by omega, h2⟩
                    · rintro ⟨h1, h2⟩; exact ⟨by omega, h2⟩
                  show some (wake1 (.procChan initIdx) (stage initIdx curIdx ps1 k j q)) =
                      some (stage initIdx curIdx ps1 (k + 1) j q)
                  unfold stage
                  dsimp only
                  rw [hzk1, if_pos rfl, if_congr hcnd rfl rfl]
                  by_cases hzkk : zombieKidUpto curIdx ps1 k = true
                  · rw [if_pos hzkk, wake1_idem]
                  · rw [if_neg hzkk]
            · -- reparented non-zombie child: no wakeup
              rw [reparent1_child_live hAk (by rw [hSpar]; exact hpar)
                    (fun hc =>
                      hzb ((stage_self_zombie_iff initIdx curIdx ps1 k qk).mp hc))]
              have hzk1 : zombieKidUpto curIdx ps1 (k + 1) = zombieKidUpto curIdx ps1 k := by
                rw [zombieKidUpto_succ, hk]
                simp [hzb]
              constructor
              · simp [ihlen]
              · intro j q hj
                by_cases hjk : j = k
                · subst hjk
                  have hq : q = qk := by
                    rw [hj] at hk
                    exact Option.some.inj hk
                  subst hq
                  rw [List.getElem?_set_eq_of_lt _ (by rw [ihlen]; exact hklt)]
                  have hS : stage initIdx curIdx ps1 j j q =
                      (if zombieKidUpto curIdx ps1 j = true
                       then wake1 (.procChan initIdx) q else q) := by
                    unfold stage
                    dsimp only
                    simp only [Nat.lt_irrefl, false_and, if_false]
                  rw [hS]
                  by_cases hzkk : zombieKidUpto curIdx ps1 j = true
                  · rw [if_pos hzkk]
                    show some { wake1 (.procChan initIdx) q with parent := some initIdx } =
                        some (stage initIdx curIdx ps1 (j + 1) j q)
                    rw [← wake1_update_parent]
                    unfold stage
                    dsimp only
                    have hcc : j < j + 1 ∧ q.parent = some curIdx :=
                      ⟨Nat.lt_succ_self j, hpar⟩
                    rw [hzk1, if_pos hzkk, if_pos hcc]
                  · rw [if_neg hzkk]
                    show some ({ q with parent := some initIdx } : Proc) =
                        some (stage initIdx curIdx ps1 (j + 1) j q)
                    unfold stage
                    dsimp only
                    have hcc : j < j + 1 ∧ q.parent = some curIdx :=
                      ⟨Nat.lt_succ_self j, hpar⟩
                    rw [hzk1, if_neg hzkk, if_pos hcc]
                · rw [List.getElem?_set_ne (Ne.symm hjk), ihget j q hj]
                  have hcnd : (j < k + 1 ∧ q.parent = some curIdx) ↔
                      (j < k ∧ q.parent = some curIdx) := by
                    constructor
                    · rintro ⟨h1, h2⟩; exact ⟨by omega, h2⟩
                    · rintro ⟨h1, h2⟩; exact ⟨by omega, h2⟩
                  unfold stage
                  dsimp only
                  rw [hzk1, if_congr hcnd rfl rfl]
          · -- not a child: slot untouched
            rw [reparent1_not_child hAk (by rw [hSpar]; exact hpar)]
            have hzk1 : zombieKidUpto curIdx ps1 (k + 1) = zombieKidUpto curIdx ps1 k := by
              rw [zombieKidUpto_succ, hk]
              simp [hpar]
            refine ⟨ihlen, ?_⟩
            intro j q hj
            by_cases hjk : j = k
            · subst hjk
              have hq : q = qk := by
                rw [hj] at hk
                exact Option.some.inj hk
              subst hq
              rw [ihget j q hj]
              have hnc : ¬(j < j + 1 ∧ q.parent = some curIdx) := fun hc => hpar hc.2
              have hnc2 : ¬(j < j ∧ q.parent = some curIdx) := fun hc => hpar hc.2
              unfold stage
              dsimp only
              rw [hzk1, if_neg hnc, if_neg hnc2]
            · rw [ihget j q hj]
              have hcnd : (j < k + 1 ∧ q.parent = some curIdx) ↔
                  (j < k ∧ q.parent = some curIdx) := by
                constructor
                · rintro ⟨h1, h2⟩; exact ⟨by omega, h2⟩
                · rintro ⟨h1, h2⟩; exact ⟨by omega, h2⟩
              unfold stage
              dsimp only
              rw [hzk1, if_congr hcnd rfl rfl]

theorem stage_eq (initIdx curIdx : Nat) (ps1 : List Proc) (L j : Nat) (W : Proc)
    (hj : j < L) :
    stage initIdx curIdx ps1 L j W =
      { W with
        parent := if W.parent = some curIdx then some initIdx else W.parent,
        state := if zombieKidUpto curIdx ps1 L = true ∧ W.state = .SLEEPING ∧
                   W.chan = .procChan initIdx
                 then .RUNNABLE else W.state } := by
  unfold stage
  dsimp only
  by_cases hp : W.parent = some curIdx
  · by_cases hzk : zombieKidUpto curIdx ps1 L = true
    · by_cases hws : W.state = .SLEEPING ∧ W.chan = .procChan initIdx
      · obtain ⟨h1, h2⟩ := hws
        simp [wake1, hp, hzk, hj, h1, h2]
      · simp [wake1, hp, hzk, hj, hws]
    · simp [wake1, hp, hzk, hj]
  · by_cases hzk : zombieKidUpto curIdx ps1 L = true
    · by_cases hws : W.state = .SLEEPING ∧ W.chan = .procChan initIdx
      · obtain ⟨h1, h2⟩ := hws
        simp [wake1, hp, hzk, hj, h1, h2]
      · simp [wake1, hp, hzk, hj, hws]
    · simp [wake1, hp, hzk, hj]

theorem mem_of_getElem_some {ps : List Proc} {i : Nat} {a : Proc}
    (h : ps[i]? = some a) : a ∈ ps := by
  have hlt : i < ps.length := getElem?_some_lt h
  rw [List.getElem?_eq_getElem hlt] at h
  exact (Option.some.inj h) ▸ List.getElem_mem hlt

theorem zombieKidUpto_full (curIdx : Nat) (c : Chan) (ps : List Proc) :
    zombieKidUpto curIdx (wakeup1 c ps) ps.length = true ↔
      ∃ r ∈ ps, r.parent = some curIdx ∧ r.state = .ZOMBIE := by
  unfold zombieKidUpto
  rw [List.any_eq_true]
  constructor
  · rintro ⟨i, hi, hcheck⟩
    rw [List.mem_range] at hi
    have hgi : ps[i]? = some ps[i] := List.getElem?_eq_getElem hi
    rw [wakeup1_getElem, hgi, Option.map_some'] at hcheck
    simp only [Bool.and_eq_true, beq_iff_eq] at hcheck
    obtain ⟨hcp, hcz⟩ := hcheck
    rw [wake1_parent] at hcp
    rw [wake1_zombie_iff] at hcz
    exact ⟨ps[i], List.getElem_mem hi, hcp, hcz⟩
  · rintro ⟨r, hr, hp, hz⟩
    obtain ⟨i, hi, hv⟩ := List.mem_iff_getElem.mp hr
    refine ⟨i, List.mem_range.mpr hi, ?_⟩
    have hgi : ps[i]? = some r := by rw [List.getElem?_eq_getElem hi, hv]
    rw [wakeup1_getElem, hgi, Option.map_some']
    rw [wake1_not_sleeping (by simp [hz])]
    simp [hp, hz]

theorem stage_wake_fields (initIdx curIdx : Nat) (ps : List Proc) (pc : Chan)
    (j : Nat) (pj : Proc) (hj : j < ps.length) :
    stage initIdx curIdx (wakeup1 pc ps) ps.length j (wake1 pc pj) =
      { pj with
        parent := if pj.parent = some curIdx then some initIdx else pj.parent,
        state := if pj.state = .SLEEPING ∧ (pj.chan = pc ∨
            (zombieKidUpto curIdx (wakeup1 pc ps) ps.length = true ∧
             pj.chan = .procChan initIdx))
          then .RUNNABLE else pj.state } := by
  rw [stage_eq _ _ _ _ _ _ hj]
  by_cases h1 : pj.state = .SLEEPING
  · by_cases h2 : pj.chan = pc
    · rw [show wake1 pc pj = { pj with state := .RUNNABLE } from by simp [wake1, h1, h2]]
      simp [h1, h2]
    · rw [show wake1 pc pj = pj from by simp [wake1, h2]]
      by_cases hzk : zombieKidUpto curIdx (wakeup1 pc ps) ps.length = true
      · by_cases h3 : pj.chan = .procChan initIdx
        · simp [h1, h2, hzk, h3]
        · simp [h1, h2, hzk, h3]
      · simp [h1, h2, hzk]
  · rw [wake1_not_sleeping h1]
    simp [h1]

/-- C3: `exit` called by the distinguished root unit (`initproc`) is fatal
(modelled as `none`); called by any other unit with the table lock held, it
wakes every unit sleeping on the exiting unit's parent's address, reparents
every unit whose parent is the exiting unit to the root unit — additionally
waking sleepers on the root's address when such a reparented unit is already
ZOMBIE — sets the exiting unit's state to ZOMBIE, and hands the resulting
table to the scheduler (the call itself never returns; a return would hit
`panic("zombie exit")`).  No other field of any slot changes. -/
theorem exit_spec (initIdx curIdx : Nat) (ps : List Proc) (hcl : curIdx < ps.length) :
    (curIdx = initIdx → exit initIdx curIdx ps = none) ∧
    (curIdx ≠ initIdx →
      ∃ ps2, exit initIdx curIdx ps = some ps2 ∧
        ps2.length = ps.length ∧
        (∀ (j : Nat) (pj : Proc), ps[j]? = some pj →
          ∃ qj, ps2[j]? = some qj ∧
            qj.state = (if j = curIdx then .ZOMBIE
              else if pj.state = .SLEEPING ∧
                  (pj.chan = chanOfParent ((ps.getD curIdx default).parent) ∨
                   ((∃ r ∈ ps, r.parent = some curIdx ∧ r.state = .ZOMBIE) ∧
                    pj.chan = .procChan initIdx))
                then .RUNNABLE else pj.state) ∧
            qj.parent = (if pj.parent = some curIdx then some initIdx else pj.parent) ∧
            qj.pid = pj.pid ∧ qj.pgdir = pj.pgdir ∧ qj.sz = pj.sz ∧
            qj.kstack = pj.kstack ∧ qj.chan = pj.chan ∧ qj.killed = pj.killed ∧
            qj.is_thread = pj.is_thread ∧ qj.user_stack = pj.user_stack ∧
            qj.name = pj.name ∧ qj.tf = pj.tf)) := by
  constructor
  · intro he
    unfold exit
    rw [if_pos he]
  · intro hne
    have hw1len : (wakeup1 (chanOfParent ((ps.getD curIdx default).parent)) ps).length =
        ps.length := by
      simp [wakeup1]
    obtain ⟨hflen, hfget⟩ := reparent_fold_get initIdx curIdx
      (wakeup1 (chanOfParent ((ps.getD curIdx default).parent)) ps) ps.length
    refine ⟨((List.range ps.length).foldl (reparent1 initIdx curIdx)
        (wakeup1 (chanOfParent ((ps.getD curIdx default).parent)) ps)).set curIdx
        { ((List.range ps.length).foldl (reparent1 initIdx curIdx)
            (wakeup1 (chanOfParent ((ps.getD curIdx default).parent)) ps)).getD curIdx
            default with state := .ZOMBIE }, ?_, ?_, ?_⟩
    · unfold exit
      rw [if_neg hne]
    · rw [List.length_set, hflen, hw1len]
    · intro j pj hj
      have hjlt : j < ps.length := getElem?_some_lt hj
      have hups1 : (wakeup1 (chanOfParent ((ps.getD curIdx default).parent)) ps)[j]? =
          some (wake1 (chanOfParent ((ps.getD curIdx default).parent)) pj) := by
        rw [wakeup1_getElem, hj, Option.map_some']
      have hFj := hfget j _ hups1
      rw [stage_wake_fields initIdx curIdx ps _ j pj hjlt] at hFj
      by_cases hjc : j = curIdx
      · subst hjc
        have hgd : ((List.range ps.length).foldl (reparent1 initIdx j)
            (wakeup1 (chanOfParent ((ps.getD j default).parent)) ps)).getD j
            default =
            { pj with
              parent := if pj.parent = some j then some initIdx else pj.parent,
              state := if pj.state = .SLEEPING ∧
                  (pj.chan = chanOfParent ((ps.getD j default).parent) ∨
                   (zombieKidUpto j
                      (wakeup1 (chanOfParent ((ps.getD j default).parent)) ps)
                      ps.length = true ∧
                    pj.chan = .procChan initIdx))
                then .RUNNABLE else pj.state } := by
          rw [List.getD, List.get?_eq_getElem?, hFj]
          rfl
        refine ⟨{ pj with
            parent := if pj.parent = some j then some initIdx else pj.parent,
            state := .ZOMBIE }, ?_, ?_, rfl, rfl, rfl, rfl, rfl, rfl, rfl, rfl, rfl,
            rfl, rfl⟩
        · rw [List.getElem?_set_eq_of_lt _ (by rw [hflen, hw1len]; exact hcl), hgd]
        · rw [if_pos rfl]
      · refine ⟨{ pj with
            parent := if pj.parent = some curIdx then some initIdx else pj.parent,
            state := if pj.state = .SLEEPING ∧
                (pj.chan = chanOfParent ((ps.getD curIdx default).parent) ∨
                 (zombieKidUpto curIdx
                    (wakeup1 (chanOfParent ((ps.getD curIdx default).parent)) ps)
                    ps.length = true ∧
                  pj.chan = .procChan initIdx))
              then .RUNNABLE else pj.state }, ?_, ?_, rfl, rfl, rfl, rfl, rfl, rfl,
            rfl, rfl, rfl, rfl, rfl⟩
        · rw [List.getElem?_set_ne (Ne.symm hjc)]
          exact hFj
        · rw [if_neg hjc]
          simp only [zombieKidUpto_full]

/-- Table for the C3 witness: the root unit in slot 0 sleeping on its own
address (as in `wait`), the exiting unit in slot 1 (child of the root), and a
ZOMBIE child of the exiting unit in slot 2. -/
def tblC3 : List Proc :=
  [{ (default : Proc) with state := .SLEEPING, pid := 1, chan := .procChan 0 },
   { (default : Proc) with state := .RUNNING, pid := 2, parent := some 0 },
   { (default : Proc) with state := .ZOMBIE, pid := 3, parent := some 1 }]

/-- Witness for C3: the root unit calling `exit` is fatal, and a concrete
non-root `exit` produces the characterized table. -/
theorem exit_spec_witness :
    exit 0 0 tblC3 = none ∧
    (∃ ps2, exit 0 1 tblC3 = some ps2 ∧
      ps2.length = tblC3.length ∧
      (∀ (j : Nat) (pj : Proc), tblC3[j]? = some pj →
        ∃ qj, ps2[j]? = some qj ∧
          qj.state = (if j = 1 then .ZOMBIE
            else if pj.state = .SLEEPING ∧
                (pj.chan = chanOfParent ((tblC3.getD 1 default).parent) ∨
                 ((∃ r ∈ tblC3, r.parent = some 1 ∧ r.state = .ZOMBIE) ∧
                  pj.chan = .procChan 0))
              then .RUNNABLE else pj.state) ∧
          qj.parent = (if pj.parent = some 1 then some 0 else pj.parent) ∧
          qj.pid = pj.pid ∧ qj.pgdir = pj.pgdir ∧ qj.sz = pj.sz ∧
          qj.kstack = pj.kstack ∧ qj.chan = pj.chan ∧ qj.killed = pj.killed ∧
          qj.is_thread = pj.is_thread ∧ qj.user_stack = pj.user_stack ∧
          qj.name = pj.name ∧ qj.tf = pj.tf)) :=
  ⟨(exit_spec 0 0 tblC3 (by decide)).1 rfl,
   (exit_spec 0 1 tblC3 (by decide)).2 (by decide)⟩

/-! ### Ticket lock (C8) -/

/-- Program position of one contender running
`ticket_lock_acquire(lk); <critical section>; ticket_lock_release(lk)`
(ulib.c): `idle` before the `xadd(&lk->ticket, 1)`; `waiting t` spinning in
`while (lk->turn != my_ticket)` with `my_ticket = t`; `cs t` past the spin,
inside the critical section; `finished t` after the release. -/
inductive Phase where
  | idle
  | waiting (t : Nat)
  | cs (t : Nat)
  | finished (t : Nat)
deriving DecidableEq, Repr

/-- Whether a contender has completed its release. -/
def Phase.isFinished : Phase → Bool
  | .finished _ => true
  | _ => false

/-- Whether a contender has executed its `xadd` on `ticket`. -/
def Phase.nonIdle : Phase → Bool
  | .idle => false
  | _ => true

/-- The ticket a contender obtained from `xadd`, if any. -/
def Phase.held : Phase → Option Nat
  | .idle => none
  | .waiting t => some t
  | .cs t => some t
  | .finished t => some t

/-- The `ticket_lock_t` counters (thread.h) plus each of the `K` contenders'
positions. -/
structure TLState (K : Nat) where
  ticket : Nat
  turn : Nat
  ph : Fin K → Phase

/-- `ticket_lock_init`: both counters zero, everyone idle. -/
def initTL (K : Nat) : TLState K := ⟨0, 0, fun _ => .idle⟩

/-- Interleaving semantics of the ticket lock (ulib.c / thread.h): `fetch` is
the atomic 32-bit `xadd(&lk->ticket, 1)` returning the old value; `enter`
is the exit of the `while (lk->turn != my_ticket)` spin, enabled exactly when
`turn` equals the obtained ticket; `leave` is `ticket_lock_release`'s atomic
`xadd(&lk->turn, 1)`. -/
inductive TLStep (K : Nat) : TLState K → TLState K → Prop where
  | fetch (s : TLState K) (i : Fin K) (h : s.ph i = .idle) :
      TLStep K s ⟨(s.ticket + 1) % 4294967296, s.turn,
        Function.update s.ph i (.waiting s.ticket)⟩
  | enter (s : TLState K) (i : Fin K) (t : Nat) (h : s.ph i = .waiting t)
      (ht : s.turn = t) :
      TLStep K s ⟨s.ticket, s.turn, Function.update s.ph i (.cs t)⟩
  | leave (s : TLState K) (i : Fin K) (t : Nat) (h : s.ph i = .cs t) :
      TLStep K s ⟨s.ticket, (s.turn + 1) % 4294967296,
        Function.update s.ph i (.finished t)⟩

/-- States reachable from the freshly initialized lock. -/
def TLReach (K : Nat) (s : TLState K) : Prop :=
  Relation.ReflTransGen (TLStep K) (initTL K) s

/-- Inductive invariant of the ticket lock: `ticket` counts contenders past
their `xadd`, `turn` counts completed releases, held tickets are below
`ticket` and pairwise distinct, finished tickets are below `turn`, waiting
tickets are at least `turn`, and a contender in the critical section holds
exactly ticket `turn`. -/
def TLInv (K : Nat) (s : TLState K) : Prop :=
  s.ticket = (Finset.univ.filter (fun i : Fin K => (s.ph i).nonIdle = true)).card ∧
  s.turn = (Finset.univ.filter (fun i : Fin K => (s.ph i).isFinished = true)).card ∧
  (∀ (i : Fin K) (t : Nat), (s.ph i).held = some t → t < s.ticket) ∧
  (∀ (i j : Fin K) (t u : Nat), i ≠ j → (s.ph i).held = some t →
    (s.ph j).held = some u → t ≠ u) ∧
  (∀ (i : Fin K) (t : Nat), s.ph i = .finished t → t < s.turn) ∧
  (∀ (i : Fin K) (t : Nat), s.ph i = .waiting t → s.turn ≤ t) ∧
  (∀ (i : Fin K) (t : Nat), s.ph i = .cs t → s.turn = t)

theorem card_filter_split {K : Nat} (P : Phase → Bool) (f : Fin K → Phase) (i : Fin K) :
    (Finset.univ.filter (fun j => P (f j) = true)).card =
      ((Finset.univ.erase i).filter (fun j => P (f j) = true)).card +
        (if P (f i) = true then 1 else 0) := by
  have h : (Finset.univ : Finset (Fin K)) = insert i (Finset.univ.erase i) :=
    (Finset.insert_erase (Finset.mem_univ i)).symm
  conv_lhs => rw [h]
  rw [Finset.filter_insert]
  by_cases hp : P (f i) = true
  · rw [if_pos hp, if_pos hp, Finset.card_insert_of_not_mem]
    intro hmem
    exact (Finset.mem_erase.mp (Finset.mem_filter.mp hmem).1).1 rfl
  · rw [if_neg hp, if_neg hp, Nat.add_zero]

theorem filter_erase_update {K : Nat} (P : Phase → Bool) (f : Fin K → Phase)
    (i : Fin K) (v : Phase) :
    ((Finset.univ.erase i).filter (fun j => P (Function.update f i v j) = true)) =
      ((Finset.univ.erase i).filter (fun j => P (f j) = true)) := by
  apply Finset.filter_congr
  intro j hj
  rw [Function.update_noteq (Finset.mem_erase.mp hj).1]

theorem card_update_eq {K : Nat} (P : Phase → Bool) (f : Fin K → Phase)
    (i : Fin K) (v : Phase) (h : P v = P (f i)) :
    (Finset.univ.filter (fun j => P (Function.update f i v j) = true)).card =
      (Finset.univ.filter (fun j => P (f j) = true)).card := by
  rw [card_filter_split P (Function.update f i v) i, card_filter_split P f i,
      filter_erase_update, Function.update_same, h]

theorem card_update_add {K : Nat} (P : Phase → Bool) (f : Fin K → Phase)
    (i : Fin K) (v : Phase) (hv : P v = true) (hf : P (f i) = false) :
    (Finset.univ.filter (fun j => P (Function.update f i v j) = true)).card =
      (Finset.univ.filter (fun j => P (f j) = true)).card + 1 := by
  rw [card_filter_split P (Function.update f i v) i, card_filter_split P f i,
      filter_erase_update, Function.update_same, hv, hf]
  simp

theorem card_filter_le_of_false {K : Nat} (P : Phase → Bool) (f : Fin K → Phase)
    (i : Fin K) (hf : P (f i) = false) :
    (Finset.univ.filter (fun j => P (f j) = true)).card ≤ K - 1 := by
  rw [card_filter_split P f i, hf]
  simp only [Bool.false_eq_true, if_false, Nat.add_zero]
  calc ((Finset.univ.erase i).filter (fun j => P (f j) = true)).card
      ≤ (Finset.univ.erase i).card := Finset.card_filter_le _ _
    _ = K - 1 := by
        rw [Finset.card_erase_of_mem (Finset.mem_univ i), Finset.card_univ,
          Fintype.card_fin]

theorem card_finished_le_nonIdle {K : Nat} (f : Fin K → Phase) :
    (Finset.univ.filter (fun j => (f j).isFinished = true)).card ≤
      (Finset.univ.filter (fun j => (f j).nonIdle = true)).card := by
  apply Finset.card_le_card
  intro j hj
  rw [Finset.mem_filter] at hj ⊢
  refine ⟨hj.1, ?_⟩
  cases hfj : f j with
  | idle => rw [hfj] at hj; simp [Phase.isFinished] at hj
  | waiting t => rfl
  | cs t => rfl
  | finished t => rfl

theorem TLInv_step {K : Nat} (hK : K < 4294967296) {s s2 : TLState K}
    (hstep : TLStep K s s2) (hinv : TLInv K s) : TLInv K s2 := by
  obtain ⟨h1, h2, h3, h4, h5, h6, h7⟩ := hinv
  have hturn_le : s.turn ≤ s.ticket := by
    rw [h1, h2]
    exact card_finished_le_nonIdle s.ph
  cases hstep with
  | fetch i hidle =>
      have hNI : Phase.nonIdle (s.ph i) = false := by rw [hidle]; rfl
      have htick_le : s.ticket ≤ K - 1 := by
        rw [h1]
        exact card_filter_le_of_false _ _ i hNI
      have hKpos : 0 < K := i.pos
      have hmod : (s.ticket + 1) % 4294967296 = s.ticket + 1 :=
        Nat.mod_eq_of_lt (by omega)
      refine ⟨?_, ?_, ?_, ?_, ?_, ?_, ?_⟩ <;> dsimp only
      · rw [hmod, card_update_add Phase.nonIdle s.ph i (Phase.waiting s.ticket) rfl hNI,
          h1]
      · rw [h2, card_update_eq Phase.isFinished s.ph i (Phase.waiting s.ticket)
          (by rw [hidle]; rfl)]
      · intro i2 u hh
        rw [hmod]
        by_cases hii : i2 = i
        · subst hii
          rw [Function.update_same] at hh
          have hu : s.ticket = u := by simpa [Phase.held] using hh
          omega
        · rw [Function.update_noteq hii] at hh
          have := h3 i2 u hh
          omega
      · intro i2 j2 u v hij hh1 hh2
        by_cases hi2 : i2 = i <;> by_cases hj2 : j2 = i
        · exact absurd (hi2.trans hj2.symm) hij
        · subst hi2
          rw [Function.update_same] at hh1
          rw [Function.update_noteq hj2] at hh2
          have hu : s.ticket = u := by simpa [Phase.held] using hh1
          have := h3 j2 v hh2
          omega
        · subst hj2
          rw [Function.update_same] at hh2
          rw [Function.update_noteq hi2] at hh1
          have hv : s.ticket = v := by simpa [Phase.held] using hh2
          have := h3 i2 u hh1
          omega
        · rw [Function.update_noteq hi2] at hh1
          rw [Function.update_noteq hj2] at hh2
          exact h4 i2 j2 u v hij hh1 hh2
      · intro i2 u hf
        by_cases hii : i2 = i
        · subst hii
          rw [Function.update_same] at hf
          exact Phase.noConfusion hf
        · rw [Function.update_noteq hii] at hf
          exact h5 i2 u hf
      · intro i2 u hwj
        by_cases hii : i2 = i
        · subst hii
          rw [Function.update_same] at hwj
          have : s.ticket = u := by
            injection hwj
          omega
        · rw [Function.update_noteq hii] at hwj
          exact h6 i2 u hwj
      · intro i2 u hcs
        by_cases hii : i2 = i
        · subst hii
          rw [Function.update_same] at hcs
          exact Phase.noConfusion hcs
        · rw [Function.update_noteq hii] at hcs
          exact h7 i2 u hcs
  | enter i t hw ht =>
      have hheld_up : ∀ j, (Function.update s.ph i (Phase.cs t) j).held =
          (s.ph j).held := by
        intro j
        by_cases hji : j = i
        · subst hji
          rw [Function.update_same, hw]
          rfl
        · rw [Function.update_noteq hji]
      refine ⟨?_, ?_, ?_, ?_, ?_, ?_, ?_⟩ <;> dsimp only
      · rw [h1, card_update_eq Phase.nonIdle s.ph i (Phase.cs t) (by rw [hw]; rfl)]
      · rw [h2, card_update_eq Phase.isFinished s.ph i (Phase.cs t) (by rw [hw]; rfl)]
      · intro i2 u hh
        rw [hheld_up] at hh
        exact h3 i2 u hh
      · intro i2 j2 u v hij hh1 hh2
        rw [hheld_up] at hh1 hh2
        exact h4 i2 j2 u v hij hh1 hh2
      · intro i2 u hf
        by_cases hii : i2 = i
        · subst hii
          rw [Function.update_same] at hf
          exact Phase.noConfusion hf
        · rw [Function.update_noteq hii] at hf
          exact h5 i2 u hf
      · intro i2 u hwj
        by_cases hii : i2 = i
        · subst hii
          rw [Function.update_same] at hwj
          exact Phase.noConfusion hwj
        · rw [Function.update_noteq hii] at hwj
          exact h6 i2 u hwj
      · intro i2 u hcs
        by_cases hii : i2 = i
        · subst hii
          rw [Function.update_same] at hcs
          have : t = u := by injection hcs
          rw [← this]
          exact ht
        · rw [Function.update_noteq hii] at hcs
          exact h7 i2 u hcs
  | leave i t hcs =>
      have hturn_t : s.turn = t := h7 i t hcs
      have hFin : Phase.isFinished (s.ph i) = false := by rw [hcs]; rfl
      have hturn_le2 : s.turn ≤ K - 1 := by
        rw [h2]
        exact card_filter_le_of_false _ _ i hFin
      have hKpos : 0 < K := i.pos
      have hmod : (s.turn + 1) % 4294967296 = s.turn + 1 :=
        Nat.mod_eq_of_lt (by omega)
      have hheld_up : ∀ j, (Function.update s.ph i (Phase.finished t) j).held =
          (s.ph j).held := by
        intro j
        by_cases hji : j = i
        · subst hji
          rw [Function.update_same, hcs]
          rfl
        · rw [Function.update_noteq hji]
      refine ⟨?_, ?_, ?_, ?_, ?_, ?_, ?_⟩ <;> dsimp only
      · rw [h1, card_update_eq Phase.nonIdle s.ph i (Phase.finished t) (by rw [hcs]; rfl)]
      · rw [hmod,
          card_update_add Phase.isFinished s.ph i (Phase.finished t) rfl hFin, h2]
      · intro i2 u hh
        rw [hheld_up] at hh
        exact h3 i2 u hh
      · intro i2 j2 u v hij hh1 hh2
        rw [hheld_up] at hh1 hh2
        exact h4 i2 j2 u v hij hh1 hh2
      · intro i2 u hf
        rw [hmod]
        by_cases hii : i2 = i
        · subst hii
          rw [Function.update_same] at hf
          have : t = u := by injection hf
          omega
        · rw [Function.update_noteq hii] at hf
          have := h5 i2 u hf
          omega
      · intro i2 u hwj
        rw [hmod]
        by_cases hii : i2 = i
        · subst hii
          rw [Function.update_same] at hwj
          exact Phase.noConfusion hwj
        · rw [Function.update_noteq hii] at hwj
          have hle := h6 i2 u hwj
          have hne : t ≠ u :=
            h4 i i2 t u (fun he => hii he.symm) (by rw [hcs]; rfl) (by rw [hwj]; rfl)
          omega
      · intro i2 u hcs2
        by_cases hii : i2 = i
        · subst hii
          rw [Function.update_same] at hcs2
          exact Phase.noConfusion hcs2
        · rw [Function.update_noteq hii] at hcs2
          have hu := h7 i2 u hcs2
          have hne : t ≠ u :=
            h4 i i2 t u (fun he => hii he.symm) (by rw [hcs]; rfl) (by rw [hcs2]; rfl)
          omega

theorem TLReach_inv {K : Nat} (hK : K < 4294967296) {s : TLState K}
    (hs : TLReach K s) : TLInv K s := by
  induction hs with
  | refl =>
      refine ⟨?_, ?_, ?_, ?_, ?_, ?_, ?_⟩
      · simp [initTL, Phase.nonIdle]
      · simp [initTL, Phase.isFinished]
      · intro i t h
        simp [initTL, Phase.held] at h
      · intro i j t u hij h1 h2
        simp [initTL, Phase.held] at h1
      · intro i t h
        simp [initTL] at h
      · intro i t h
        simp [initTL] at h
      · intro i t h
        simp [initTL] at h
  | tail hrtg hstep ih =>
      exact TLInv_step hK hstep ih

/-- C8: in every reachable state of the ticket lock with `K` contenders
(each acquiring once, then releasing — so no contender acquires twice before
all acquire once by construction of the program), (1) strict FIFO: any
contender that has completed its critical section obtained a strictly
smaller ticket than any contender still waiting for or inside the critical
section, so entries happen in ticket-issuance order; (2) mutual exclusion:
two distinct contenders are never both inside the critical section; and
(3) quiescence: when every contender has finished, `turn = K` (total
releases) and `ticket = K` (total acquires), so the counts agree. -/
theorem ticket_lock_fifo (K : Nat) (hK : K < 4294967296) (s : TLState K)
    (hs : TLReach K s) :
    (∀ (i j : Fin K) (t u : Nat), s.ph i = .finished t →
      (s.ph j = .waiting u ∨ s.ph j = .cs u) → t < u) ∧
    (∀ (i j : Fin K) (t u : Nat), i ≠ j → s.ph i = .cs t → s.ph j = .cs u → False) ∧
    ((∀ i : Fin K, (s.ph i).isFinished = true) → s.turn = K ∧ s.ticket = K) := by
  obtain ⟨h1, h2, h3, h4, h5, h6, h7⟩ := TLReach_inv hK hs
  refine ⟨?_, ?_, ?_⟩
  · intro i j t u hf hwc
    have ht : t < s.turn := h5 i t hf
    cases hwc with
    | inl hw => exact Nat.lt_of_lt_of_le ht (h6 j u hw)
    | inr hc =>
        rw [h7 j u hc] at ht
        exact ht
  · intro i j t u hij hci hcj
    have hne : t ≠ u :=
      h4 i j t u hij (by rw [hci]; rfl) (by rw [hcj]; rfl)
    have ht := h7 i t hci
    have hu := h7 j u hcj
    omega
  · intro hall
    have hfin : (Finset.univ.filter
        (fun i : Fin K => (s.ph i).isFinished = true)) = Finset.univ := by
      apply Finset.eq_univ_iff_forall.mpr
      intro i
      rw [Finset.mem_filter]
      exact ⟨Finset.mem_univ i, hall i⟩
    have hni : (Finset.univ.filter
        (fun i : Fin K => (s.ph i).nonIdle = true)) = Finset.univ := by
      apply Finset.eq_univ_iff_forall.mpr
      intro i
      rw [Finset.mem_filter]
      refine ⟨Finset.mem_univ i, ?_⟩
      have := hall i
      cases h : s.ph i with
      | idle => rw [h] at this; simp [Phase.isFinished] at this
      | waiting t => rfl
      | cs t => rfl
      | finished t => rfl
    constructor
    · rw [h2, hfin, Finset.card_univ, Fintype.card_fin]
    · rw [h1, hni, Finset.card_univ, Fintype.card_fin]

/-- Witness for C8: with a single contender, the run
fetch-ticket → enter → release is reachable; the theorem then gives
`turn = ticket = 1` at quiescence. -/
theorem ticket_lock_fifo_witness :
    ∃ s : TLState 1, TLReach 1 s ∧ (∀ i : Fin 1, (s.ph i).isFinished = true) ∧
      s.turn = 1 ∧ s.ticket = 1 := by
  have hfun1 : Function.update (initTL 1).ph (0 : Fin 1)
      (Phase.waiting (initTL 1).ticket) = (fun _ => Phase.waiting 0) := by
    funext j
    rw [Subsingleton.elim j 0, Function.update_same]
    rfl
  have hst1 : TLStep 1 (initTL 1) ⟨1, 0, fun _ => Phase.waiting 0⟩ := by
    have h := TLStep.fetch (initTL 1) 0 rfl
    rw [hfun1] at h
    exact h
  have hfun2 : Function.update (fun _ : Fin 1 => Phase.waiting 0) (0 : Fin 1)
      (Phase.cs 0) = (fun _ => Phase.cs 0) := by
    funext j
    rw [Subsingleton.elim j 0, Function.update_same]
  have hst2 : TLStep 1 (⟨1, 0, fun _ => Phase.waiting 0⟩ : TLState 1)
      ⟨1, 0, fun _ => Phase.cs 0⟩ := by
    have h := TLStep.enter (⟨1, 0, fun _ => Phase.waiting 0⟩ : TLState 1) 0 0 rfl rfl
    rw [hfun2] at h
    exact h
  have hfun3 : Function.update (fun _ : Fin 1 => Phase.cs 0) (0 : Fin 1)
      (Phase.finished 0) = (fun _ => Phase.finished 0) := by
    funext j
    rw [Subsingleton.elim j 0, Function.update_same]
  have hst3 : TLStep 1 (⟨1, 0, fun _ => Phase.cs 0⟩ : TLState 1)
      ⟨1, 1, fun _ => Phase.finished 0⟩ := by
    have h := TLStep.leave (⟨1, 0, fun _ => Phase.cs 0⟩ : TLState 1) 0 0 rfl
    rw [hfun3] at h
    exact h
  have hreach : TLReach 1 (⟨1, 1, fun _ => Phase.finished 0⟩ : TLState 1) :=
    Relation.ReflTransGen.tail
      (Relation.ReflTransGen.tail
        (Relation.ReflTransGen.tail Relation.ReflTransGen.refl hst1) hst2) hst3
  have hall : ∀ i : Fin 1,
      (((⟨1, 1, fun _ => Phase.finished 0⟩ : TLState 1)).ph i).isFinished = true :=
    fun _ => rfl
  have hq := (ticket_lock_fifo 1 (by decide) _ hreach).2.2 hall
  exact ⟨_, hreach, hall, hq.1, hq.2⟩
